import Mathlib

/-!
Verification development for the CCL confidential-computing simulator.

The development shallowly embeds the core of the repository:
  - the mock key-management service (server/security/kms_mock.py),
  - the SGX-style enclave runtime (server/simulation/enclave_runtime.py),
  - the SEV-style encrypted memory, VM model and launch flow
    (sev/encrypted_memory.py, sev/vm_model.py, sev/launch_flow.py).

Python byte strings are modelled as lists of natural numbers.  The
library primitives the code calls (hashlib.sha256, hmac.new(...).digest(),
hashlib.pbkdf2_hmac, base64.urlsafe_b64encode / b64decode, json.dumps /
json.loads) are modelled as parameters collected in a `Prims` structure,
with the properties the code relies on (32-byte digests, decode inverting
encode, loads inverting dumps) taken as explicit hypotheses of the
theorems.  Random draws (the 16-byte iv of encrypt, attestation nonces)
are passed as explicit arguments.  A concrete executable instance
`tstPrims` is used to evaluate the development on closed inputs.
-/

namespace CCL

/-- Byte strings (Python `bytes`): lists of naturals, one per byte. -/
abbrev Bytes := List Nat

/-- Library primitives used by the code, as parameters of the embedding. -/
structure Prims where
  sha256 : Bytes → Bytes
  hmacSha256 : Bytes → Bytes → Bytes
  pbkdf2HmacSha256 : Bytes → Bytes → Nat → Nat → Bytes
  b64encode : Bytes → Bytes
  b64decode : Bytes → Option Bytes

/-- The digest function returns 32-byte digests (true of sha256). -/
def Sha32 (C : Prims) : Prop := ∀ b, (C.sha256 b).length = 32

/-- The keyed hash returns 32-byte tags (true of hmac-sha256). -/
def Hmac32 (C : Prims) : Prop := ∀ k m, (C.hmacSha256 k m).length = 32

/-- Transport decoding inverts transport encoding (true of base64). -/
def B64Inv (C : Prims) : Prop := ∀ b, C.b64decode (C.b64encode b) = some b

/-- Big-endian 4-byte encoding of a counter: `counter.to_bytes(4, "big")`. -/
def be4 (n : Nat) : Bytes :=
  [n / 2 ^ 24 % 256, n / 2 ^ 16 % 256, n / 2 ^ 8 % 256, n % 256]

/-- Lowercase hex character code of a nibble, as produced by `hexdigest`. -/
def hexChar (n : Nat) : Nat := if n < 10 then 48 + n else 87 + n

/-- Byte string of the lowercase hex rendering of a digest (`hexdigest`). -/
def hexOfBytes (b : Bytes) : Bytes :=
  b.flatMap (fun x => [hexChar (x / 16), hexChar (x % 16)])

/-- Decimal rendering of a natural, as byte codes: Python `str(n).encode()`. -/
def decimalOf (n : Nat) : Bytes := (Nat.toDigits 10 n).map Char.toNat

/-- Lookup in an association list (Python `dict.get`). -/
def alookup {κ β : Type} [DecidableEq κ] (k : κ) : List (κ × β) → Option β
  | [] => none
  | p :: t => if p.1 = k then some p.2 else alookup k t

/-- Update/insert in an association list (Python `dict[k] = v`). -/
def aset {κ β : Type} [DecidableEq κ] (k : κ) (v : β) :
    List (κ × β) → List (κ × β)
  | [] => [(k, v)]
  | p :: t => if p.1 = k then (k, v) :: t else p :: aset k v t

/-! ## KMSMock (server/security/kms_mock.py) -/

/-- State of a `KMSMock` instance: the master secret and the derived-key
cache, a dict keyed by the string `identity:context`. -/
structure KMSMock where
  master_secret : Bytes
  cache : List (Bytes × Bytes)

/-- Cache key used by `derive_key`: the f-string joining identity and
context with a colon (byte 58). -/
def cacheKey (identity context : Bytes) : Bytes := identity ++ 58 :: context

/-- Embedding of `KMSMock.derive_key`: on a cache miss, salt =
sha256(context), key = pbkdf2_hmac("sha256", identity, salt, 200000,
dklen=32), wrapped = hmac(master_secret, key, sha256); the wrapped key is
cached under `identity:context` and returned. -/
def derive_key (C : Prims) (s : KMSMock) (identity context : Bytes) :
    Bytes × KMSMock :=
  let ck := cacheKey identity context
  match alookup ck s.cache with
  | some k => (k, s)
  | none =>
    let salt := C.sha256 context
    let key := C.pbkdf2HmacSha256 identity salt 200000 32
    let wrapped := C.hmacSha256 s.master_secret key
    (wrapped, ⟨s.master_secret, (ck, wrapped) :: s.cache⟩)

/-- Loop body of `KMSMock._expand_keystream`: append
sha256(material ++ be4 counter) while the stream is shorter than the
requested length.  The fuel argument only bounds the number of loop
iterations so that the recursion is structural; `expand_keystream`
passes `len`, which is enough fuel because every iteration appends a
32-byte digest to the stream. -/
def expandLoop (C : Prims) (material : Bytes) (len : Nat)
    (stream : Bytes) (counter : Nat) : Nat → Bytes
  | 0 => stream
  | fuel + 1 =>
    if stream.length < len then
      expandLoop C material len
        (stream ++ C.sha256 (material ++ be4 counter)) (counter + 1) fuel
    else stream

/-- Embedding of `KMSMock._expand_keystream`: material = key ++ iv, grow
the stream in sha256 blocks, return the first `length` bytes. -/
def expand_keystream (C : Prims) (key iv : Bytes) (len : Nat) : Bytes :=
  (expandLoop C (key ++ iv) len [] 0 len).take len

/-- Embedding of `KMSMock.encrypt` with the drawn 16-byte iv made an
explicit argument: ciphertext = plaintext xor keystream, mac =
hmac(key, iv ++ ciphertext), token = b64encode(iv ++ ciphertext ++ mac). -/
def encrypt (C : Prims) (key iv plaintext : Bytes) : Bytes :=
  let keystream := expand_keystream C key iv plaintext.length
  let ciphertext := List.zipWith (fun p k => p ^^^ k) plaintext keystream
  let mac := C.hmacSha256 key (iv ++ ciphertext)
  C.b64encode (iv ++ ciphertext ++ mac)

/-- Error kinds raised by the embedded operations, one per distinct
exception of the source. -/
inductive Err
  | malformedToken
  | integrityError
  | noSealedData
  | invalidSegments
  | identityRequired
  | unknownEcall
  | notLoaded
  | jsonDecodeError
  | pageNotFound
  | vmNotFound
  deriving DecidableEq, Repr

/-- Embedding of `KMSMock.decrypt`: base64-decode (ValueError "Token was
not valid base64" on failure), split data into data[0:16], rest[:-32] and
rest[-32:], recompute the hmac over iv ++ ciphertext and compare with the
stored mac (ValueError "Ciphertext integrity check failed" on mismatch),
then xor the ciphertext with the regenerated keystream.  Nat subtraction
`rest.length - 32` matches Python negative slicing on short inputs. -/
def decrypt (C : Prims) (key token : Bytes) : Except Err Bytes :=
  match C.b64decode token with
  | none => .error .malformedToken
  | some data =>
    let iv := data.take 16
    let rest := data.drop 16
    let ciphertext := rest.take (rest.length - 32)
    let mac := rest.drop (rest.length - 32)
    let candidate := C.hmacSha256 key (iv ++ ciphertext)
    if candidate = mac then
      .ok (List.zipWith (fun c k => c ^^^ k) ciphertext
        (expand_keystream C key iv ciphertext.length))
    else .error .integrityError

/-! ## SimulatedEnclave (server/simulation/enclave_runtime.py) -/

/-- Embedding of `MemoryPage`: isolated enclave memory. -/
structure MemoryPage where
  address : Nat
  size : Nat
  data : Bytes
  deriving DecidableEq, Repr

/-- Embedding of `AttestationReport` for simulated enclaves. -/
structure AttestationReport where
  mrenclave : Bytes
  signer : Bytes
  nonce : Bytes
  policy_version : Bytes
  deriving DecidableEq, Repr

/-- State of a `SimulatedEnclave` instance. -/
structure SimulatedEnclave where
  name : Bytes
  signer : Bytes
  pages : List MemoryPage
  loaded : Bool
  mrenclave : Bytes
  sealed_store : List (Bytes × Bytes)
  deriving DecidableEq, Repr

/-- Embedding of `SimulatedEnclave.__init__`: default signer "lab",
empty pages, `loaded=False`, empty measurement and sealed store. -/
def mkEnclave (name signer : Bytes) : SimulatedEnclave :=
  ⟨name, signer, [], false, [], []⟩

/-- Embedding of `SimulatedEnclave._measure`: hash the data of each page
in order, then the utf-8 bytes of the name and the signer, and render as
a hex digest. -/
def measureE (C : Prims) (e : SimulatedEnclave) (pages : List MemoryPage) :
    Bytes :=
  hexOfBytes (C.sha256 ((pages.foldl (fun acc p => acc ++ p.data) [])
    ++ e.name ++ e.signer))

/-- Embedding of `SimulatedEnclave.load`: reject an empty segment list or
any empty segment (ValueError in the source), lay out each segment as a
`MemoryPage` at address `i * 0x1000` with size and data equal to the
segment, recompute the measurement from the new pages, set
`loaded=True`, and return the measurement. -/
def load (C : Prims) (e : SimulatedEnclave) (segments : List Bytes) :
    Except Err (Bytes × SimulatedEnclave) :=
  if segments = [] then .error .invalidSegments
  else if segments.any (fun s => s = []) then .error .invalidSegments
  else
    let pages := segments.enum.map
      (fun p => MemoryPage.mk (p.1 * 0x1000) p.2.length p.2)
    let m := measureE C e pages
    .ok (m, { e with pages := pages, mrenclave := m, loaded := true })

/-- Non-callable instance attributes set by `SimulatedEnclave.__init__`.
`getattr(self, name)` resolves them, and `ecall` then rejects them with
AttributeError "Unknown ECALL" because they are not callable. -/
def enclaveInstanceAttrs : List String :=
  ["name", "signer", "pages", "loaded", "mrenclave", "sealed_store"]

/-- The callable attributes defined in the `SimulatedEnclave` class
body, every one of which `getattr(self, name)` resolves and `ecall`
dispatches: the dunder constructor too, not only the ordinary methods. -/
def enclaveClassMethods : List String :=
  ["__init__", "load", "_measure", "enter", "ecall", "ocall", "seal",
   "unseal", "attest"]

/-- The fixed set of trusted operations named by the spec for ECALL
dispatch: seal, unseal, attest and the demo workloads. -/
def specTrustedOps : List String :=
  ["seal", "unseal", "attest", "keyword_search", "sealed_secret",
   "inference", "counter"]

/-- Outcome of resolving an ECALL name. -/
inductive EcallResolution
  | dispatched (method : String)
  | unknown
  deriving DecidableEq, Repr

/-- Embedding of the dispatch step of `SimulatedEnclave.ecall`:
`handler = getattr(self, name, None)` followed by the callable check,
with AttributeError "Unknown ECALL" when the name resolves to nothing or
to a non-callable.  Resolution follows Python's lookup order: instance
attributes shadow the class-body methods, which shadow the attributes
inherited from object.  The inherited surface (callables such as the
repr and class dunders, non-callables such as the doc dunder) is
interpreter-version dependent, so it is passed in as an oracle:
`inherited name = some b` means the name resolves to an inherited
attribute whose callability is b, and `none` that it resolves to no
attribute at all.  The enclave argument mirrors `self`; the source
consults no enclave state (in particular not `loaded`). -/
def ecallResolve (inherited : String → Option Bool)
    (e : SimulatedEnclave) (name : String) : EcallResolution :=
  if name ∈ enclaveInstanceAttrs then .unknown
  else if name ∈ enclaveClassMethods then .dispatched name
  else
    match inherited name with
    | some true => .dispatched name
    | some false => .unknown
    | none => .unknown

/-- Embedding of `SimulatedEnclave.enter` restricted to its guard: the
only operation of the class that checks `loaded` (RuntimeError "Enclave
not initialized" when false) before running the handler. -/
def enter {γ : Type} (e : SimulatedEnclave)
    (handler : SimulatedEnclave → γ) : Except Err γ :=
  if e.loaded then .ok (handler e) else .error .notLoaded

/-- Embedding of `SimulatedEnclave.seal` with the serializer and the
drawn iv explicit: require a non-empty identity (ValueError), derive a
key for the identity with the current measurement as context, serialize
the data, encrypt it, and store the token under the identity. -/
def sealE {α : Type} (C : Prims) (dumps : α → Bytes) (kms : KMSMock)
    (e : SimulatedEnclave) (identity : Bytes) (data : α) (iv : Bytes) :
    Except Err (Bytes × SimulatedEnclave × KMSMock) :=
  if identity = [] then .error .identityRequired
  else
    let kd := derive_key C kms identity e.mrenclave
    let blob := dumps data
    let token := encrypt C kd.1 iv blob
    .ok (token,
      { e with sealed_store := aset identity token e.sealed_store }, kd.2)

/-- Embedding of `SimulatedEnclave.unseal` with the deserializer
explicit: KeyError "No sealed data for identity" when the identity is
absent, otherwise re-derive the key from the identity and the current
measurement, decrypt the stored token and deserialize. -/
def unsealE {α : Type} (C : Prims) (loads : Bytes → Option α)
    (kms : KMSMock) (e : SimulatedEnclave) (identity : Bytes) :
    Except Err (α × KMSMock) :=
  match alookup identity e.sealed_store with
  | none => .error .noSealedData
  | some token =>
    let kd := derive_key C kms identity e.mrenclave
    match decrypt C kd.1 token with
    | .error err => .error err
    | .ok blob =>
      match loads blob with
      | none => .error .jsonDecodeError
      | some data => .ok (data, kd.2)

/-- Embedding of `SimulatedEnclave.attest` with the drawn nonce
explicit: package the current measurement, signer, nonce and policy
version; the enclave state is not consulted otherwise nor changed. -/
def attest (e : SimulatedEnclave) (policy_version nonce : Bytes) :
    AttestationReport :=
  ⟨e.mrenclave, e.signer, nonce, policy_version⟩

/-! ## EncryptedMemory (sev/encrypted_memory.py) -/

/-- Embedding of `EncryptedPage`: page id, token and integrity digest. -/
structure EncryptedPage where
  page_id : Nat
  ciphertext : Bytes
  mac : Bytes
  deriving DecidableEq, Repr

/-- Embedding of `EncryptedMemory`: pages keyed by page id. -/
structure EncryptedMemory where
  vm_id : Bytes
  pages : List (Nat × EncryptedPage)
  deriving DecidableEq, Repr

/-- Embedding of `_derive_page_key`: derive a key for identity
`vm:<vm_id>` ("vm:" is bytes 118, 109, 58) and context `str(page_id)`. -/
def derive_page_key (C : Prims) (kms : KMSMock) (vm_id : Bytes)
    (page_id : Nat) : Bytes × KMSMock :=
  derive_key C kms ([118, 109, 58] ++ vm_id) (decimalOf page_id)

/-- Embedding of `EncryptedMemory._mac`: the hex digest of the sha256 of
the token's utf-8 bytes. -/
def memMac (C : Prims) (token : Bytes) : Bytes :=
  hexOfBytes (C.sha256 token)

/-- Embedding of `EncryptedMemory.write` with the drawn iv explicit:
derive the page key, encrypt the data, store the page metadata under the
page id (replacing any prior entry) and return it. -/
def memWrite (C : Prims) (kms : KMSMock) (mem : EncryptedMemory)
    (page_id : Nat) (data : Bytes) (iv : Bytes) :
    EncryptedPage × EncryptedMemory × KMSMock :=
  let kd := derive_page_key C kms mem.vm_id page_id
  let token := encrypt C kd.1 iv data
  let page := EncryptedPage.mk page_id token (memMac C token)
  (page, { mem with pages := aset page_id page mem.pages }, kd.2)

/-- Embedding of `EncryptedMemory.read`: KeyError "Page missing" when
the page id is absent; otherwise derive the page key, decrypt the stored
token (any decryption failure propagates here), and only then compare
the recomputed digest with the stored one (ValueError "Integrity check
failed for page" on mismatch) before returning the plaintext.  The
decrypt step precedes the digest comparison, as in the source. -/
def memRead (C : Prims) (kms : KMSMock) (mem : EncryptedMemory)
    (page_id : Nat) : Except Err (Bytes × KMSMock) :=
  match alookup page_id mem.pages with
  | none => .error .pageNotFound
  | some page =>
    let kd := derive_page_key C kms mem.vm_id page_id
    match decrypt C kd.1 page.ciphertext with
    | .error err => .error err
    | .ok data =>
      if memMac C page.ciphertext = page.mac then .ok (data, kd.2)
      else .error .integrityError

/-! ## SimulatedVM (sev/vm_model.py) -/

/-- Embedding of `VcpuState`: id and register dict. -/
structure VcpuState where
  id : Nat
  registers : List (String × Nat)
  deriving DecidableEq, Repr

/-- Embedding of `SimulatedVM`. -/
structure SimulatedVM where
  vm_id : Bytes
  owner : Bytes
  memory : EncryptedMemory
  vcpus : List VcpuState
  measurement : Option Bytes
  deriving DecidableEq, Repr

/-- Embedding of `SimulatedVM.launch_vcpu`: append a vCPU whose id is
the current vCPU count, with registers rip = 0 and rsp = 0. -/
def launch_vcpu (vm : SimulatedVM) : VcpuState × SimulatedVM :=
  let vcpu := VcpuState.mk vm.vcpus.length [("rip", 0), ("rsp", 0)]
  (vcpu, { vm with vcpus := vm.vcpus ++ [vcpu] })

/-- Ascending-page-id ordering of stored pages, as produced by Python
`sorted(self.pages.items())` (page ids are unique dict keys). -/
def sortedPages (l : List (Nat × EncryptedPage)) :
    List (Nat × EncryptedPage) :=
  l.insertionSort (fun a b => a.1 ≤ b.1)

/-- Embedding of `SimulatedVM.measure`: hash the vm id and owner, then
for each page in ascending page-id order its ciphertext, mac and decimal
page id; store the hex digest in `measurement` and return it. -/
def measureVM (C : Prims) (vm : SimulatedVM) : Bytes × SimulatedVM :=
  let input := (sortedPages vm.memory.pages).foldl
    (fun acc p => acc ++ p.2.ciphertext ++ p.2.mac ++ decimalOf p.1)
    (vm.vm_id ++ vm.owner)
  let m := hexOfBytes (C.sha256 input)
  (m, { vm with measurement := some m })

/-- Embedding of `SimulatedVM.attest` with the drawn nonce explicit:
recompute the measurement only when none is cached, then report the vm
id, nonce and measurement. -/
def attestVM (C : Prims) (vm : SimulatedVM) (nonce : Bytes) :
    (Bytes × Bytes × Bytes) × SimulatedVM :=
  match vm.measurement with
  | some m => ((vm.vm_id, nonce, m), vm)
  | none =>
    let r := measureVM C vm
    ((vm.vm_id, nonce, r.1), r.2)

/-! ## SevLaunchManager (sev/launch_flow.py) -/

/-- Embedding of `SevLaunchManager`: VMs keyed by vm id. -/
structure SevLaunchManager where
  vms : List (Bytes × SimulatedVM)
  deriving DecidableEq, Repr

/-- Embedding of `SevLaunchManager.encrypt_page`: resolve the VM
(KeyError "VM not found" when absent), write the page, recompute the
measurement, and return the measurement and page mac together with the
updated manager and KMS states. -/
def encrypt_page (C : Prims) (kms : KMSMock) (mgr : SevLaunchManager)
    (vm_id : Bytes) (page_id : Nat) (data : Bytes) (iv : Bytes) :
    Except Err ((Bytes × Bytes) × SevLaunchManager × KMSMock) :=
  match alookup vm_id mgr.vms with
  | none => .error .vmNotFound
  | some vm =>
    let w := memWrite C kms vm.memory page_id data iv
    let r := measureVM C { vm with memory := w.2.1 }
    .ok ((r.1, w.1.mac), ⟨aset vm_id r.2 mgr.vms⟩, w.2.2)

/-- Embedding of `SevLaunchManager.launch_vcpu`: resolve the VM (KeyError
"VM not found" when absent) and append a vCPU, returning its id. -/
def mgr_launch_vcpu (mgr : SevLaunchManager) (vm_id : Bytes) :
    Except Err (Nat × SevLaunchManager) :=
  match alookup vm_id mgr.vms with
  | none => .error .vmNotFound
  | some vm =>
    let r := launch_vcpu vm
    .ok (r.1.id, ⟨aset vm_id r.2 mgr.vms⟩)

/-- Embedding of `SevLaunchManager.attest`: resolve the VM (KeyError "VM
not found" when absent) and delegate to the VM attestation. -/
def mgr_attest (C : Prims) (mgr : SevLaunchManager) (vm_id : Bytes)
    (nonce : Bytes) :
    Except Err ((Bytes × Bytes × Bytes) × SevLaunchManager) :=
  match alookup vm_id mgr.vms with
  | none => .error .vmNotFound
  | some vm =>
    let r := attestVM C vm nonce
    .ok (r.1, ⟨aset vm_id r.2 mgr.vms⟩)

/-! ## Concrete primitives for closed evaluations

An executable stand-in for the hash-based primitives: 32-byte outputs
with enough mixing that the concrete inequalities the witnesses need can
be checked by `decide`.  The transport codec is the identity codec. -/

/-- Concrete 32-byte mixing digest for closed evaluations. -/
def tstSha (b : Bytes) : Bytes :=
  (List.range 32).map
    (fun i => b.foldl (fun a x => (a * 131 + x + 7) % 251) (i + 3))

/-- Concrete primitive instance for closed evaluations. -/
def tstPrims : Prims where
  sha256 := tstSha
  hmacSha256 := fun k m => tstSha (k ++ 1 :: m)
  pbkdf2HmacSha256 := fun pw salt iters dk =>
    tstSha (pw ++ 2 :: salt ++ [iters % 256, dk % 256])
  b64encode := id
  b64decode := some

/-- Variant instance whose decoder rejects the byte string [7], used to
exercise the undecodable-token paths. -/
def tstPrimsBad : Prims where
  sha256 := tstSha
  hmacSha256 := fun k m => tstSha (k ++ 1 :: m)
  pbkdf2HmacSha256 := fun pw salt iters dk =>
    tstSha (pw ++ 2 :: salt ++ [iters % 256, dk % 256])
  b64encode := id
  b64decode := fun s => if s = [7] then none else some s

/-! ## Helper lemmas -/

theorem take_len_append (l₁ l₂ : Bytes) : (l₁ ++ l₂).take l₁.length = l₁ := by
  induction l₁ with
  | nil => rfl
  | cons a t ih => simpa using ih

theorem drop_len_append (l₁ l₂ : Bytes) : (l₁ ++ l₂).drop l₁.length = l₂ := by
  induction l₁ with
  | nil => rfl
  | cons a t ih => simpa using ih

theorem xor_zip_cancel :
    ∀ (P ks : Bytes), P.length ≤ ks.length →
      List.zipWith (fun c k => c ^^^ k)
        (List.zipWith (fun p k => p ^^^ k) P ks) ks = P
  | [], _, _ => by simp
  | p :: P, k :: ks, h => by
    simp only [List.zipWith]
    refine congrArg₂ _ ?_ (xor_zip_cancel P ks (by simpa using h))
    rw [Nat.xor_assoc, Nat.xor_self, Nat.xor_zero]

theorem expandLoop_length_ge (C : Prims) (h32 : Sha32 C) :
    ∀ (fuel : Nat) (material : Bytes) (len : Nat) (stream : Bytes)
      (counter : Nat), len - stream.length ≤ fuel →
      len ≤ (expandLoop C material len stream counter fuel).length := by
  intro fuel
  induction fuel with
  | zero =>
    intro material len stream counter h
    rw [expandLoop]
    omega
  | succ n ih =>
    intro material len stream counter h
    rw [expandLoop]
    by_cases hlt : stream.length < len
    · simp only [hlt, if_true]
      refine ih material len _ (counter + 1) ?_
      have h32' := h32 (material ++ be4 counter)
      simp only [List.length_append, h32']
      omega
    · simp only [hlt, if_false]
      omega

theorem expand_keystream_length (C : Prims) (h32 : Sha32 C)
    (key iv : Bytes) (len : Nat) :
    (expand_keystream C key iv len).length = len := by
  have h := expandLoop_length_ge C h32 len (key ++ iv) len [] 0
    (by simp)
  simp only [expand_keystream, List.length_take]
  omega

/-- The ciphertext part of the token produced by `encrypt`. -/
def encCt (C : Prims) (key iv P : Bytes) : Bytes :=
  List.zipWith (fun p k => p ^^^ k) P (expand_keystream C key iv P.length)

theorem decrypt_encrypt_split (C : Prims) (h32 : Sha32 C) (hm32 : Hmac32 C)
    (hb : B64Inv C) (key₂ key iv P : Bytes) (hiv : iv.length = 16) :
    decrypt C key₂ (encrypt C key iv P) =
      if C.hmacSha256 key₂ (iv ++ encCt C key iv P)
          = C.hmacSha256 key (iv ++ encCt C key iv P) then
        .ok (List.zipWith (fun c k => c ^^^ k) (encCt C key iv P)
          (expand_keystream C key₂ iv (encCt C key iv P).length))
      else .error .integrityError := by
  have hks : (expand_keystream C key iv P.length).length = P.length :=
    expand_keystream_length C h32 key iv P.length
  set ct := encCt C key iv P with hct_def
  have hctlen : ct.length = P.length := by
    rw [hct_def]
    simp [encCt, hks]
  set mac := C.hmacSha256 key (iv ++ ct) with hmac_def
  have hmlen : mac.length = 32 := hm32 _ _
  have henc : encrypt C key iv P = C.b64encode (iv ++ (ct ++ mac)) := by
    rw [hmac_def, hct_def]
    simp only [encrypt, encCt, List.append_assoc]
  rw [henc]
  unfold decrypt
  rw [hb]
  have htake : (iv ++ (ct ++ mac)).take 16 = iv := by
    rw [← hiv]
    exact take_len_append iv (ct ++ mac)
  have hdrop : (iv ++ (ct ++ mac)).drop 16 = ct ++ mac := by
    rw [← hiv]
    exact drop_len_append iv (ct ++ mac)
  simp only [htake, hdrop]
  have hrl : (ct ++ mac).length - 32 = ct.length := by
    simp [hmlen]
  rw [hrl, take_len_append ct mac, drop_len_append ct mac]

theorem decrypt_encrypt_ok (C : Prims) (h32 : Sha32 C) (hm32 : Hmac32 C)
    (hb : B64Inv C) (key iv P : Bytes) (hiv : iv.length = 16) :
    decrypt C key (encrypt C key iv P) = .ok P := by
  rw [decrypt_encrypt_split C h32 hm32 hb key key iv P hiv, if_pos rfl]
  have hks : (expand_keystream C key iv P.length).length = P.length :=
    expand_keystream_length C h32 key iv P.length
  have hctlen : (encCt C key iv P).length = P.length := by
    simp [encCt, hks]
  rw [hctlen]
  simp only [encCt]
  rw [xor_zip_cancel P (expand_keystream C key iv P.length) (by omega)]

theorem decrypt_encrypt_badmac (C : Prims) (h32 : Sha32 C)
    (hm32 : Hmac32 C) (hb : B64Inv C) (key₂ key iv P : Bytes)
    (hiv : iv.length = 16)
    (hne : C.hmacSha256 key₂ (iv ++ encCt C key iv P)
      ≠ C.hmacSha256 key (iv ++ encCt C key iv P)) :
    decrypt C key₂ (encrypt C key iv P) = .error .integrityError := by
  rw [decrypt_encrypt_split C h32 hm32 hb key₂ key iv P hiv, if_neg hne]

theorem derive_key_stable (C : Prims) (s : KMSMock) (i c : Bytes) :
    derive_key C (derive_key C s i c).2 i c = derive_key C s i c := by
  unfold derive_key
  cases h : alookup (cacheKey i c) s.cache with
  | some k => simp [h]
  | none => simp [h, alookup]

theorem alookup_aset_self {κ β : Type} [DecidableEq κ] (k : κ) (v : β) :
    ∀ l : List (κ × β), alookup k (aset k v l) = some v
  | [] => by simp [aset, alookup]
  | p :: t => by
    by_cases h : p.1 = k
    · simp [aset, alookup, h]
    · simp [aset, alookup, h, alookup_aset_self k v t]

theorem aset_aset {κ β : Type} [DecidableEq κ] (k : κ) (v₁ v₂ : β) :
    ∀ l : List (κ × β), aset k v₂ (aset k v₁ l) = aset k v₂ l
  | [] => by simp [aset]
  | p :: t => by
    by_cases h : p.1 = k
    · simp [aset, h]
    · simp [aset, h, aset_aset k v₁ v₂ t]

theorem tstSha_length (b : Bytes) : (tstSha b).length = 32 := by
  simp [tstSha]

theorem tst_Sha32 : Sha32 tstPrims := fun b => tstSha_length b

theorem tst_Hmac32 : Hmac32 tstPrims := fun k m => tstSha_length _

theorem tst_B64Inv : B64Inv tstPrims := fun _ => rfl

theorem tstBad_Sha32 : Sha32 tstPrimsBad := fun b => tstSha_length b

theorem tstBad_Hmac32 : Hmac32 tstPrimsBad := fun k m => tstSha_length _

/-- A concrete 16-byte iv for closed evaluations. -/
def tstIv : Bytes := List.range 16

/-! ## Claim theorems -/

/-- C1: for every key K and plaintext byte string P, and any 16-byte iv
the encryption draws, decrypting the token produced by encrypting P
under K returns exactly P, given that the digest primitives produce
32-byte outputs and transport decoding inverts transport encoding. -/
theorem C1_decrypt_encrypt_roundtrip (C : Prims) (key iv P : Bytes)
    (h32 : Sha32 C) (hm32 : Hmac32 C) (hb : B64Inv C)
    (hiv : iv.length = 16) :
    decrypt C key (encrypt C key iv P) = .ok P :=
  decrypt_encrypt_ok C h32 hm32 hb key iv P hiv

/-- Witness for C1 at a concrete key, iv and plaintext. -/
theorem C1_witness :
    decrypt tstPrims [9, 9] (encrypt tstPrims [9, 9] tstIv [1, 2, 3])
      = .ok [1, 2, 3] :=
  C1_decrypt_encrypt_roundtrip tstPrims [9, 9] tstIv [1, 2, 3]
    tst_Sha32 tst_Hmac32 tst_B64Inv (by decide)

/-- The cache-key aliasing of derive_key, for every choice of primitives
and master secret: the pairs (identity "a:b", context "c") and (identity
"a", context "b:c") share the cache key "a:b:c", so on one instance the
second call returns the first call's cached entry. -/
theorem derive_key_alias (C : Prims) (master : Bytes) :
    (derive_key C (derive_key C ⟨master, []⟩ [97, 58, 98] [99]).2
        [97] [98, 58, 99]).1
      = (derive_key C ⟨master, []⟩ [97, 58, 98] [99]).1 := by
  simp [derive_key, cacheKey, alookup]

/-- C2 failing input: on one KMSMock instance, derive_key for the two
distinct pairs (identity "a:b", context "c") and (identity "a", context
"b:c") — bytes [97,58,98]/[99] and [97]/[98,58,99] — deterministically
returns bitwise-identical keys, contradicting the claim that no two
distinct pairs ever deterministically yield the same key.  The cause is
the non-injective f-string cache key "identity:context". -/
theorem C2_derive_key_cache_alias :
    (derive_key tstPrims (derive_key tstPrims ⟨[9], []⟩ [97, 58, 98]
        [99]).2 [97] [98, 58, 99]).1
      = (derive_key tstPrims ⟨[9], []⟩ [97, 58, 98] [99]).1
    ∧ ¬ (([97, 58, 98], [99]) = (([97], [98, 58, 99]) :
        Bytes × Bytes)) :=
  ⟨derive_key_alias tstPrims [9], by decide⟩

theorem decrypt_errors (C : Prims) (key t : Bytes) :
    decrypt C key t = .error .malformedToken
    ∨ decrypt C key t = .error .integrityError
    ∨ ∃ p, decrypt C key t = .ok p := by
  unfold decrypt
  split
  · left; rfl
  · dsimp only
    split
    · right; right; exact ⟨_, rfl⟩
    · right; left; rfl

theorem classMethods_not_instanceAttrs :
    ∀ x ∈ enclaveClassMethods, x ∉ enclaveInstanceAttrs := by decide

/-- C3 counterexample: on a freshly constructed enclave, which has
loaded = false, seal succeeds rather than failing; and on a loaded
enclave, ecall dispatch resolves the names "ocall" — the untrusted-host
transition — and "__init__" — the constructor, whose dispatch
re-initializes the enclave — both outside any fixed set of trusted
operations, because dispatch is attribute lookup over the whole
object. -/
theorem C3_counterexample :
    (mkEnclave [100] [108]).loaded = false
    ∧ (sealE tstPrims id ⟨[9], []⟩ (mkEnclave [100] [108]) [97] [5, 6]
        tstIv).isOk = true
    ∧ ecallResolve (fun _ => none)
        { mkEnclave [100] [108] with loaded := true } "ocall"
        = .dispatched "ocall"
    ∧ ecallResolve (fun _ => none)
        { mkEnclave [100] [108] with loaded := true } "__init__"
        = .dispatched "__init__"
    ∧ "ocall" ∉ specTrustedOps
    ∧ "__init__" ∉ specTrustedOps := by decide

/-- C3 amended: only enter is guarded by loaded.  On an enclave with
loaded = false, ecall dispatch, seal (given a non-empty identity),
unseal and attest all proceed exactly as on a loaded enclave.  Ecall
dispatch, characterized relative to the oracle describing the
interpreter's inherited-attribute surface, dispatches every callable
attribute regardless of loaded — each class-body method, the dunder
constructor included, and every inherited callable — and fails with
UnknownOperation exactly for names resolving to a non-callable
attribute (the instance fields, the non-callable inherited attributes)
or to no attribute.  Seal succeeds; unseal never fails for lack of
loading; attest returns a report over the current state; and enter —
the one guarded operation — fails. -/
theorem C3_no_loaded_gate {α γ : Type} (C : Prims) (dumps : α → Bytes)
    (loads : Bytes → Option α) (f : SimulatedEnclave → γ)
    (inherited : String → Option Bool) (kms : KMSMock)
    (e : SimulatedEnclave) (name : String)
    (identity : Bytes) (d : α) (iv pv nonce : Bytes)
    (hun : e.loaded = false) (hid : identity ≠ []) :
    enter e f = .error .notLoaded
    ∧ (ecallResolve inherited e name = .unknown ↔
        name ∈ enclaveInstanceAttrs
        ∨ (name ∉ enclaveClassMethods ∧ inherited name ≠ some true))
    ∧ (name ∈ enclaveClassMethods →
        ecallResolve inherited e name = .dispatched name)
    ∧ (inherited name = some true → name ∉ enclaveInstanceAttrs →
        ecallResolve inherited e name = .dispatched name)
    ∧ (sealE C dumps kms e identity d iv).isOk = true
    ∧ unsealE C loads kms e identity ≠ .error .notLoaded
    ∧ attest e pv nonce = AttestationReport.mk e.mrenclave e.signer nonce pv := by
  refine ⟨?_, ?_, ?_, ?_, ?_, ?_, rfl⟩
  · simp [enter, hun]
  · by_cases h1 : name ∈ enclaveInstanceAttrs
    · simp [ecallResolve, h1]
    · by_cases h2 : name ∈ enclaveClassMethods
      · simp [ecallResolve, h1, h2]
      · cases hi : inherited name with
        | none => simp [ecallResolve, h1, h2, hi]
        | some b => cases b <;> simp [ecallResolve, h1, h2, hi]
  · intro hmem
    simp [ecallResolve, classMethods_not_instanceAttrs name hmem, hmem]
  · intro hi h1
    by_cases h2 : name ∈ enclaveClassMethods
    · simp [ecallResolve, h1, h2]
    · simp [ecallResolve, h1, h2, hi]
  · unfold sealE
    rw [if_neg hid]
    rfl
  · unfold unsealE
    cases alookup identity e.sealed_store with
    | none => simp
    | some token =>
      rcases decrypt_errors C (derive_key C kms identity e.mrenclave).1
          token with h | h | ⟨p, h⟩
      · simp [h]
      · simp [h]
      · cases hl : loads p <;> simp [h, hl]

/-- Witness for C3's amended theorem on a concrete unloaded enclave. -/
theorem C3_witness :
    (sealE tstPrims (fun b : Bytes => b) ⟨[9], []⟩
        (mkEnclave [100] [108]) [97] [5, 6] tstIv).isOk = true := by
  have h := C3_no_loaded_gate tstPrims (fun b : Bytes => b)
    (fun b : Bytes => some b) (fun _ => ()) (fun _ => none) ⟨[9], []⟩
    (mkEnclave [100] [108]) "ocall" [97] [5, 6] tstIv [118] [1]
    rfl (by decide)
  exact h.2.2.2.2.1

/-- C4 counterexample: the decoded token [] has length 0 < 48, yet
decrypt fails with IntegrityError, not MalformedToken — the source has
no minimum-length check, and Python slicing makes the short token reach
the tag comparison, which fails on length mismatch. -/
theorem C4_counterexample :
    tstPrims.b64decode [] = some []
    ∧ ([] : Bytes).length < 48
    ∧ decrypt tstPrims [5] [] = .error .integrityError := by
  exact ⟨rfl, by decide, rfl⟩

/-- C4 amended: decrypt fails with MalformedToken exactly on invalid
transport encoding; there is no minimum-length check — when the decoded
data is shorter than 48 bytes the 32-byte recomputed tag cannot equal
the stored (shorter) tag slice, so the call fails with IntegrityError
instead of MalformedToken; in general a recomputed tag that differs
from the stored tag yields IntegrityError, and plaintext is produced
only when the tag comparison succeeds. -/
theorem C4_decrypt_error_modes (C : Prims) (hm32 : Hmac32 C)
    (key t : Bytes) :
    (C.b64decode t = none → decrypt C key t = .error .malformedToken)
    ∧ (∀ data, C.b64decode t = some data → data.length < 48 →
        decrypt C key t = .error .integrityError)
    ∧ (∀ data, C.b64decode t = some data →
        C.hmacSha256 key (data.take 16 ++
          (data.drop 16).take ((data.drop 16).length - 32))
          ≠ (data.drop 16).drop ((data.drop 16).length - 32) →
        decrypt C key t = .error .integrityError)
    ∧ (∀ p, decrypt C key t = .ok p →
        ∃ data, C.b64decode t = some data ∧
          C.hmacSha256 key (data.take 16 ++
            (data.drop 16).take ((data.drop 16).length - 32))
            = (data.drop 16).drop ((data.drop 16).length - 32)) := by
  refine ⟨?_, ?_, ?_, ?_⟩
  · intro h
    unfold decrypt
    rw [h]
  · intro data hd hlen
    unfold decrypt
    rw [hd]
    dsimp only
    split
    · next hcond =>
      exfalso
      have h32' := hm32 key (data.take 16 ++
        (data.drop 16).take ((data.drop 16).length - 32))
      have hlc := congrArg List.length hcond
      rw [h32'] at hlc
      simp [List.length_drop] at hlc
      omega
    · rfl
  · intro data hd hne
    unfold decrypt
    rw [hd]
    dsimp only
    rw [if_neg hne]
  · intro p hp
    unfold decrypt at hp
    cases hbd : C.b64decode t with
    | none =>
      rw [hbd] at hp
      exact absurd hp (by simp)
    | some data =>
      rw [hbd] at hp
      dsimp only at hp
      refine ⟨data, rfl, ?_⟩
      by_contra hne
      rw [if_neg hne] at hp
      exact absurd hp (by simp)

/-- Witness for C4's amended theorem: an undecodable token fails with
MalformedToken. -/
theorem C4_witness : decrypt tstPrimsBad [5] [7] = .error .malformedToken :=
  (C4_decrypt_error_modes tstPrimsBad tstBad_Hmac32 [5] [7]).1 (by decide)

theorem seal_eq {α : Type} (C : Prims) (dumps : α → Bytes)
    (kms : KMSMock) (e : SimulatedEnclave) (identity : Bytes) (d : α)
    (iv : Bytes) (hid : identity ≠ []) :
    sealE C dumps kms e identity d iv = .ok
      (encrypt C (derive_key C kms identity e.mrenclave).1 iv (dumps d),
       { e with sealed_store := (aset identity
           (encrypt C (derive_key C kms identity e.mrenclave).1 iv
             (dumps d)) e.sealed_store) },
       (derive_key C kms identity e.mrenclave).2) := by
  unfold sealE
  rw [if_neg hid]

theorem unseal_of_store {α : Type} (C : Prims) (loads : Bytes → Option α)
    (kms : KMSMock) (e : SimulatedEnclave) (identity tok : Bytes)
    (hlook : alookup identity e.sealed_store = some tok) :
    unsealE C loads kms e identity =
      (match decrypt C (derive_key C kms identity e.mrenclave).1 tok with
       | .error err => .error err
       | .ok blob =>
         match loads blob with
         | none => .error .jsonDecodeError
         | some data =>
           .ok (data, (derive_key C kms identity e.mrenclave).2)) := by
  unfold unsealE
  rw [hlook]

theorem unseal_roundtrip {α : Type} (C : Prims) (dumps : α → Bytes)
    (loads : Bytes → Option α) (kms : KMSMock) (e : SimulatedEnclave)
    (identity : Bytes) (d : α) (iv key : Bytes) (kms' : KMSMock)
    (h32 : Sha32 C) (hm32 : Hmac32 C) (hb : B64Inv C)
    (hser : ∀ a, loads (dumps a) = some a) (hiv : iv.length = 16)
    (hder : derive_key C kms identity e.mrenclave = (key, kms'))
    (hstore : alookup identity e.sealed_store
      = some (encrypt C key iv (dumps d))) :
    unsealE C loads kms e identity = .ok (d, kms') := by
  rw [unseal_of_store C loads kms e identity _ hstore, hder]
  dsimp only
  rw [decrypt_encrypt_ok C h32 hm32 hb key iv (dumps d) hiv]
  dsimp only
  rw [hser d]

/-- C5: on a loaded enclave whose state is unchanged since load, sealing
then unsealing an identity returns the sealed data exactly; sealing the
same identity twice leaves only the second token stored and recoverable;
and unsealing an identity with no sealed entry fails with NoSealedData.
The digest, transport and serialization primitives are assumed
well-behaved (32-byte digests, decode inverting encode, loads inverting
dumps), and each encryption's drawn iv is 16 bytes. -/
theorem C5_seal_unseal_roundtrip {α : Type} (C : Prims)
    (dumps : α → Bytes) (loads : Bytes → Option α) (kms : KMSMock)
    (e : SimulatedEnclave) (identity : Bytes) (d₁ d₂ : α)
    (iv₁ iv₂ : Bytes) (h32 : Sha32 C) (hm32 : Hmac32 C) (hb : B64Inv C)
    (hser : ∀ a, loads (dumps a) = some a)
    (hiv₁ : iv₁.length = 16) (hiv₂ : iv₂.length = 16)
    (hl : e.loaded = true) (hid : identity ≠ []) :
    (∀ t e₁ kms₁,
      sealE C dumps kms e identity d₁ iv₁ = .ok (t, e₁, kms₁) →
      unsealE C loads kms₁ e₁ identity = .ok (d₁, kms₁))
    ∧ (∀ t₁ e₁ kms₁ t₂ e₂ kms₂,
        sealE C dumps kms e identity d₁ iv₁ = .ok (t₁, e₁, kms₁) →
        sealE C dumps kms₁ e₁ identity d₂ iv₂ = .ok (t₂, e₂, kms₂) →
        e₂.sealed_store = aset identity t₂ e.sealed_store
        ∧ alookup identity e₂.sealed_store = some t₂
        ∧ unsealE C loads kms₂ e₂ identity = .ok (d₂, kms₂))
    ∧ (alookup identity e.sealed_store = none →
        unsealE C loads kms e identity = .error .noSealedData) := by
  have hkd := derive_key_stable C kms identity e.mrenclave
  refine ⟨?_, ?_, ?_⟩
  · intro t e₁ kms₁ hseal
    rw [seal_eq C dumps kms e identity d₁ iv₁ hid] at hseal
    simp only [Except.ok.injEq, Prod.mk.injEq] at hseal
    obtain ⟨ht, he, hk⟩ := hseal
    subst ht he hk
    refine unseal_roundtrip C dumps loads _ _ identity d₁ iv₁
      (derive_key C kms identity e.mrenclave).1
      (derive_key C kms identity e.mrenclave).2
      h32 hm32 hb hser hiv₁ ?_ ?_
    · dsimp only
      rw [hkd]
    · dsimp only
      exact alookup_aset_self identity _ e.sealed_store
  · intro t₁ e₁ kms₁ t₂ e₂ kms₂ hseal₁ hseal₂
    rw [seal_eq C dumps kms e identity d₁ iv₁ hid] at hseal₁
    simp only [Except.ok.injEq, Prod.mk.injEq] at hseal₁
    obtain ⟨ht₁, he₁, hk₁⟩ := hseal₁
    subst ht₁ he₁ hk₁
    rw [seal_eq C dumps _ _ identity d₂ iv₂ hid] at hseal₂
    simp only [Except.ok.injEq, Prod.mk.injEq] at hseal₂
    obtain ⟨ht₂, he₂, hk₂⟩ := hseal₂
    rw [hkd] at ht₂ he₂ hk₂
    subst ht₂ he₂ hk₂
    refine ⟨?_, ?_, ?_⟩
    · dsimp only
      rw [aset_aset]
    · dsimp only
      exact alookup_aset_self identity _ _
    · refine unseal_roundtrip C dumps loads _ _ identity d₂ iv₂
        (derive_key C kms identity e.mrenclave).1
        (derive_key C kms identity e.mrenclave).2
        h32 hm32 hb hser hiv₂ ?_ ?_
      · dsimp only
        rw [hkd]
      · dsimp only
        exact alookup_aset_self identity _ _
  · intro h
    unfold unsealE
    rw [h]

/-- Witness for C5 at a concrete enclave, identity and payload. -/
theorem C5_witness :
    unsealE tstPrims (fun b : Bytes => some b)
      (derive_key tstPrims ⟨[9], []⟩ [97] []).2
      { { mkEnclave [100] [108] with loaded := true } with
        sealed_store := (aset [97]
          (encrypt tstPrims (derive_key tstPrims ⟨[9], []⟩ [97] []).1
            tstIv [5, 6]) []) } [97]
      = .ok ([5, 6], (derive_key tstPrims ⟨[9], []⟩ [97] []).2) := by
  have h := (C5_seal_unseal_roundtrip tstPrims (fun b : Bytes => b)
    (fun b : Bytes => some b) ⟨[9], []⟩
    { mkEnclave [100] [108] with loaded := true } [97] [5, 6] [7, 8]
    tstIv tstIv tst_Sha32 tst_Hmac32 tst_B64Inv (fun _ => rfl)
    (by decide) (by decide) rfl (by decide)).1
  exact h _ _ _ rfl

theorem foldl_append_data :
    ∀ (l : List MemoryPage) (acc : Bytes),
      l.foldl (fun a p => a ++ p.data) acc
        = acc ++ (l.map MemoryPage.data).join
  | [], acc => by simp
  | p :: t, acc => by
    simp only [List.foldl_cons, List.map_cons, List.join_cons]
    rw [foldl_append_data t (acc ++ p.data), List.append_assoc]

/-- The pages laid out by `load` for a list of segments. -/
def loadPages (segments : List Bytes) : List MemoryPage :=
  segments.enum.map (fun p => MemoryPage.mk (p.1 * 0x1000) p.2.length p.2)

/-- C6: load fails with InvalidSegments exactly when the segment list is
empty or contains an empty segment; on success it lays out segment i as
a MemoryPage at synthetic address i * 0x1000 with the segment as data,
sets loaded, and sets the measurement to the hex digest of
page_data_0 ++ page_data_1 ++ ... ++ name ++ signer in load order. -/
theorem C6_load_segments (C : Prims) (e : SimulatedEnclave)
    (segments : List Bytes) :
    (load C e segments = .error .invalidSegments ↔
      segments = [] ∨ ∃ s ∈ segments, s = [])
    ∧ (segments ≠ [] → (∀ s ∈ segments, s ≠ []) →
        load C e segments = .ok (measureE C e (loadPages segments),
          { e with pages := loadPages segments,
                   mrenclave := measureE C e (loadPages segments),
                   loaded := true })
        ∧ measureE C e (loadPages segments)
          = hexOfBytes (C.sha256 (segments.join ++ e.name ++ e.signer))) := by
  constructor
  · by_cases h1 : segments = []
    · simp [load, h1]
    · by_cases h2 : segments.any (fun s => s = []) = true
      · have h2' : ∃ s ∈ segments, s = [] := by
          rw [List.any_eq_true] at h2
          simpa using h2
        have hload : load C e segments = .error .invalidSegments := by
          unfold load
          rw [if_neg h1, if_pos h2]
        rw [hload]
        exact iff_of_true rfl (Or.inr h2')
      · have hnone : ¬ (segments = [] ∨ ∃ s ∈ segments, s = []) := by
          rintro (h | ⟨s, hs, he⟩)
          · exact h1 h
          · exact h2 (List.any_eq_true.mpr ⟨s, hs, by simp [he]⟩)
        refine iff_of_false ?_ hnone
        intro h
        unfold load at h
        rw [if_neg h1, if_neg h2] at h
        simp at h
  · intro h1 h2
    have hany : ¬ (segments.any (fun s => s = []) = true) := by
      rw [List.any_eq_true]
      rintro ⟨s, hs, he⟩
      exact h2 s hs (by simpa using he)
    constructor
    · unfold load
      rw [if_neg h1, if_neg hany]
      rfl
    · unfold measureE
      rw [foldl_append_data]
      have hdat : ((loadPages segments).map MemoryPage.data) = segments := by
        simp only [loadPages, List.map_map]
        have : (MemoryPage.data ∘ fun p : Nat × Bytes =>
            MemoryPage.mk (p.1 * 0x1000) p.2.length p.2) = Prod.snd := by
          funext p
          rfl
        rw [this, List.enum_map_snd]
      rw [hdat, List.nil_append]

/-- Witness for C6: loading two non-empty segments succeeds. -/
theorem C6_witness :
    (load tstPrims (mkEnclave [100] [108]) [[1], [2, 3]]).isOk = true := by
  have h := (C6_load_segments tstPrims (mkEnclave [100] [108])
    [[1], [2, 3]]).2 (by decide) (by decide)
  rw [h.1]
  rfl

/-- C7 counterexample: a stored page whose token is undecodable and
whose stored digest disagrees with the recomputed digest.  The claim
says the stored-digest comparison happens before any decryption, so the
read should fail with IntegrityError; the code decrypts first and the
read fails with MalformedToken instead. -/
theorem C7_counterexample :
    memMac tstPrimsBad [7] ≠ [9]
    ∧ memRead tstPrimsBad ⟨[9], []⟩ ⟨[1], [(0, ⟨0, [7], [9]⟩)]⟩ 0
        = .error .malformedToken := by
  exact ⟨by decide, rfl⟩

/-- C7 amended: read fails with PageNotFound if the page id is absent;
otherwise it decrypts via KeyService first — a failing decrypt surfaces
its own MalformedToken or IntegrityError before the stored digest is
consulted — and only after a successful decrypt compares the recomputed
digest of the token with the stored digest, failing with IntegrityError
on mismatch; plaintext is returned only when the digest comparison
succeeds. -/
theorem C7_read_order (C : Prims) (kms : KMSMock) (mem : EncryptedMemory)
    (pid : Nat) :
    (alookup pid mem.pages = none →
      memRead C kms mem pid = .error .pageNotFound)
    ∧ (∀ page err, alookup pid mem.pages = some page →
        decrypt C (derive_page_key C kms mem.vm_id pid).1 page.ciphertext
          = .error err →
        memRead C kms mem pid = .error err)
    ∧ (∀ page data, alookup pid mem.pages = some page →
        decrypt C (derive_page_key C kms mem.vm_id pid).1 page.ciphertext
          = .ok data →
        memMac C page.ciphertext ≠ page.mac →
        memRead C kms mem pid = .error .integrityError)
    ∧ (∀ page data kms', alookup pid mem.pages = some page →
        memRead C kms mem pid = .ok (data, kms') →
        memMac C page.ciphertext = page.mac) := by
  refine ⟨?_, ?_, ?_, ?_⟩
  · intro h
    unfold memRead
    rw [h]
  · intro page err hlook hdec
    unfold memRead
    rw [hlook]
    dsimp only
    rw [hdec]
  · intro page data hlook hdec hmac
    unfold memRead
    rw [hlook]
    dsimp only
    rw [hdec]
    dsimp only
    rw [if_neg hmac]
  · intro page data kms' hlook hread
    unfold memRead at hread
    rw [hlook] at hread
    dsimp only at hread
    cases hdec : decrypt C (derive_page_key C kms mem.vm_id pid).1
        page.ciphertext with
    | error err =>
      rw [hdec] at hread
      exact absurd hread (by simp)
    | ok blob =>
      rw [hdec] at hread
      dsimp only at hread
      by_contra hne
      rw [if_neg hne] at hread
      exact absurd hread (by simp)

/-- Witness for C7's amended theorem: a missing page id fails with
PageNotFound. -/
theorem C7_witness :
    memRead tstPrims ⟨[9], []⟩ ⟨[1], []⟩ 3 = .error .pageNotFound :=
  (C7_read_order tstPrims ⟨[9], []⟩ ⟨[1], []⟩ 3).1 rfl

theorem foldl_measure_input :
    ∀ (l : List (Nat × EncryptedPage)) (acc : Bytes),
      l.foldl (fun a p => a ++ p.2.ciphertext ++ p.2.mac ++ decimalOf p.1)
          acc
        = acc ++ (l.map
            (fun p => p.2.ciphertext ++ p.2.mac ++ decimalOf p.1)).join
  | [], acc => by simp
  | p :: t, acc => by
    simp only [List.foldl_cons, List.map_cons, List.join_cons]
    rw [foldl_measure_input t _]
    simp [List.append_assoc]

/-- C8: measure folds the vm id and owner, then each stored page's
triple of token, digest and decimal page id, taken in ascending page-id
order over exactly the stored pages, into a single digest; repeated
calls without intervening writes return the same digest and the same
state, and no page contents (nor vCPUs) are mutated. -/
theorem C8_measure_fold (C : Prims) (vm : SimulatedVM) :
    (measureVM C vm).1 = hexOfBytes (C.sha256 (vm.vm_id ++ vm.owner ++
      ((sortedPages vm.memory.pages).map
        (fun p => p.2.ciphertext ++ p.2.mac ++ decimalOf p.1)).join))
    ∧ List.Sorted (fun a b => a.1 ≤ b.1) (sortedPages vm.memory.pages)
    ∧ List.Perm (sortedPages vm.memory.pages) vm.memory.pages
    ∧ (measureVM C (measureVM C vm).2).1 = (measureVM C vm).1
    ∧ (measureVM C (measureVM C vm).2).2 = (measureVM C vm).2
    ∧ ((measureVM C vm).2).memory = vm.memory
    ∧ ((measureVM C vm).2).vcpus = vm.vcpus := by
  refine ⟨?_, ?_, ?_, rfl, rfl, rfl, rfl⟩
  · unfold measureVM
    dsimp only
    rw [foldl_measure_input]
  · haveI : IsTotal (Nat × EncryptedPage) (fun a b => a.1 ≤ b.1) :=
      ⟨fun a b => Nat.le_total a.1 b.1⟩
    haveI : IsTrans (Nat × EncryptedPage) (fun a b => a.1 ≤ b.1) :=
      ⟨fun a b c hab hbc => Nat.le_trans hab hbc⟩
    exact List.sorted_insertionSort _ _
  · exact List.perm_insertionSort _ _

/-- A concrete VM with two stored pages in reversed key order, for the
closed evaluation of measure. -/
def tstVM : SimulatedVM :=
  ⟨[1], [2], ⟨[1], [(1, ⟨1, [3], [4]⟩), (0, ⟨0, [5], [6]⟩)]⟩, [], none⟩

/-- Witness for C8: measuring the concrete VM twice returns the same
digest. -/
theorem C8_witness :
    (measureVM tstPrims (measureVM tstPrims tstVM).2).1
      = (measureVM tstPrims tstVM).1 :=
  (C8_measure_fold tstPrims tstVM).2.2.2.1

/-- The VM state after `encrypt_page` writes a page, before the
measurement is stored: the resolved VM with its memory replaced by the
post-write memory. -/
def wmVM (C : Prims) (kms : KMSMock) (vm : SimulatedVM) (page_id : Nat)
    (data iv : Bytes) : SimulatedVM :=
  { vm with memory := (memWrite C kms vm.memory page_id data iv).2.1 }

/-- C9: encrypt_page, launch_vcpu and attest on an absent vm id each
fail with VmNotFound (returning no state, hence changing no VM); on a
present id, encrypt_page writes the page, then recomputes and stores the
VM measurement; launch_vcpu appends a vCPU whose id is the current vCPU
count with default registers rip = 0 and rsp = 0 (the spec's
instructionPointer and stackPointer), so ids stay sequential from 0. -/
theorem C9_manager_resolution (C : Prims) (kms : KMSMock)
    (mgr : SevLaunchManager) (vm_id : Bytes) (page_id : Nat)
    (data iv nonce : Bytes) :
    (alookup vm_id mgr.vms = none →
      encrypt_page C kms mgr vm_id page_id data iv = .error .vmNotFound
      ∧ mgr_launch_vcpu mgr vm_id = .error .vmNotFound
      ∧ mgr_attest C mgr vm_id nonce = .error .vmNotFound)
    ∧ (∀ vm, alookup vm_id mgr.vms = some vm →
        encrypt_page C kms mgr vm_id page_id data iv = .ok
          (((measureVM C (wmVM C kms vm page_id data iv)).1,
            (memWrite C kms vm.memory page_id data iv).1.mac),
           ⟨aset vm_id (measureVM C (wmVM C kms vm page_id data iv)).2
             mgr.vms⟩,
           (memWrite C kms vm.memory page_id data iv).2.2)
        ∧ ((measureVM C (wmVM C kms vm page_id data iv)).2).measurement
            = some (measureVM C (wmVM C kms vm page_id data iv)).1
        ∧ mgr_launch_vcpu mgr vm_id = .ok (vm.vcpus.length,
            ⟨aset vm_id
              { vm with vcpus := (vm.vcpus ++
                [VcpuState.mk vm.vcpus.length [("rip", 0), ("rsp", 0)]]) }
              mgr.vms⟩)
        ∧ (vm.vcpus.map VcpuState.id = List.range vm.vcpus.length →
            (launch_vcpu vm).2.vcpus.map VcpuState.id
              = List.range (launch_vcpu vm).2.vcpus.length)) := by
  constructor
  · intro h
    refine ⟨?_, ?_, ?_⟩
    · unfold encrypt_page
      rw [h]
    · unfold mgr_launch_vcpu
      rw [h]
    · unfold mgr_attest
      rw [h]
  · intro vm h
    refine ⟨?_, rfl, ?_, ?_⟩
    · unfold encrypt_page
      rw [h]
      rfl
    · unfold mgr_launch_vcpu
      rw [h]
      rfl
    · intro hids
      unfold launch_vcpu
      dsimp only
      simp [hids, List.range_succ]

/-- Witness for C9: an unknown vm id fails with VmNotFound. -/
theorem C9_witness :
    encrypt_page tstPrims ⟨[9], []⟩ ⟨[]⟩ [1] 0 [2] tstIv
      = .error .vmNotFound :=
  ((C9_manager_resolution tstPrims ⟨[9], []⟩ ⟨[]⟩ [1] 0 [2] tstIv
    [3]).1 rfl).1

theorem load_ok_inv (C : Prims) (e : SimulatedEnclave)
    (segments : List Bytes) (m : Bytes) (e' : SimulatedEnclave)
    (h : load C e segments = .ok (m, e')) :
    m = measureE C e (loadPages segments)
    ∧ e' = { e with
              pages := loadPages segments
              mrenclave := m
              loaded := true } := by
  unfold load at h
  by_cases h1 : segments = []
  · rw [if_pos h1] at h
    exact absurd h (by simp)
  · rw [if_neg h1] at h
    by_cases h2 : segments.any (fun s => s = []) = true
    · rw [if_pos h2] at h
      exact absurd h (by simp)
    · rw [if_neg h2] at h
      dsimp only at h
      rw [Except.ok.injEq, Prod.mk.injEq] at h
      obtain ⟨hm, he⟩ := h
      subst hm
      exact ⟨rfl, he.symm⟩

/-- C10: reloading an already loaded enclave succeeds, replaces the
pages and measurement, keeps loaded = true, and leaves the sealed store
untouched, so a previously sealed identity still resolves its token
(unseal does not fail with NoSealedData); since unseal now derives its
key from the new measurement, decryption fails with IntegrityError
whenever the tag recomputed under the new key differs from the stored
tag (which holds with overwhelming probability for a real keyed hash,
and is taken as a hypothesis here). -/
theorem C10_reload_keeps_sealed_store {α : Type} (C : Prims)
    (dumps : α → Bytes) (loads : Bytes → Option α) (kms : KMSMock)
    (e : SimulatedEnclave) (identity : Bytes) (d : α) (iv : Bytes)
    (segments : List Bytes) (h32 : Sha32 C) (hm32 : Hmac32 C)
    (hb : B64Inv C) (hiv : iv.length = 16) (hid : identity ≠ []) :
    ∀ t e₁ kms₁, sealE C dumps kms e identity d iv = .ok (t, e₁, kms₁) →
    ∀ m₂ e₂, load C e₁ segments = .ok (m₂, e₂) →
      e₂.sealed_store = e₁.sealed_store
      ∧ e₂.loaded = true
      ∧ e₂.mrenclave = m₂
      ∧ alookup identity e₂.sealed_store = some t
      ∧ (C.hmacSha256 (derive_key C kms₁ identity e₂.mrenclave).1
            (iv ++ encCt C (derive_key C kms identity e.mrenclave).1 iv
              (dumps d))
          ≠ C.hmacSha256 (derive_key C kms identity e.mrenclave).1
            (iv ++ encCt C (derive_key C kms identity e.mrenclave).1 iv
              (dumps d)) →
        unsealE C loads kms₁ e₂ identity = .error .integrityError) := by
  intro t e₁ kms₁ hseal m₂ e₂ hload
  rw [seal_eq C dumps kms e identity d iv hid] at hseal
  rw [Except.ok.injEq, Prod.mk.injEq, Prod.mk.injEq] at hseal
  obtain ⟨ht, he₁, hk₁⟩ := hseal
  subst ht he₁ hk₁
  obtain ⟨hm₂, he₂⟩ := load_ok_inv C _ segments m₂ e₂ hload
  subst he₂
  refine ⟨rfl, rfl, rfl, ?_, ?_⟩
  · exact alookup_aset_self identity _ e.sealed_store
  · intro hne
    rw [unseal_of_store C loads _ _ identity _
      (alookup_aset_self identity _ e.sealed_store)]
    rw [decrypt_encrypt_badmac C h32 hm32 hb _ _ iv (dumps d) hiv hne]

set_option maxRecDepth 100000 in
/-- Witness for C10 at concrete values: seal under the empty initial
measurement, reload with segment [9], and observe the integrity failure
of unseal; the tag inequality hypothesis is checked by evaluation. -/
theorem C10_witness :
    unsealE tstPrims (fun b : Bytes => some b)
      (derive_key tstPrims ⟨[9], []⟩ [97] []).2
      { { mkEnclave [100] [108] with
          loaded := true
          sealed_store := (aset [97]
            (encrypt tstPrims (derive_key tstPrims ⟨[9], []⟩ [97] []).1
              tstIv [5, 6]) []) } with
        pages := loadPages [[9]]
        mrenclave := (measureE tstPrims
          { mkEnclave [100] [108] with
            loaded := true
            sealed_store := (aset [97]
              (encrypt tstPrims (derive_key tstPrims ⟨[9], []⟩ [97] []).1
                tstIv [5, 6]) []) } (loadPages [[9]]))
        loaded := true } [97]
      = .error .integrityError := by
  have h := C10_reload_keeps_sealed_store tstPrims (fun b : Bytes => b)
    (fun b : Bytes => some b) ⟨[9], []⟩
    { mkEnclave [100] [108] with loaded := true } [97] [5, 6] tstIv
    [[9]] tst_Sha32 tst_Hmac32 tst_B64Inv (by decide) (by decide)
    _ _ _ rfl _ _ rfl
  exact h.2.2.2.2 (by decide)

end CCL
